import Mathlib

/-
Shallow embedding of the FutureJS library (src/Future.ts) and proofs about
its specification.

Modelling choices:
  * JavaScript runtime values are represented by the inductive type JSVal
    (numbers, strings, arrays, and the undefined value used for array holes).
    Since JS erases the static L and R type parameters at runtime, both the
    failure and the success channel carry JSVal.
  * Effects are modelled by the monad M, a state-and-exception monad
    St -> St x Except JSVal a.  A thrown JS exception is the Except.error
    component; crucially, state mutations performed before a throw persist,
    exactly as in JavaScript.
  * The state St has two components: a heap of cells modelling the mutable
    closure variables of gather2 and allArray (the results array, the
    completion counter and the one-shot flag), and an append-only event log
    used to observe callback and action invocations from the outside.
  * A Future is exactly what the source says it is: a record holding an
    action, a function of the two callbacks.  Callbacks are JSVal -> M Unit.
  * User supplied functions (mappers, continuations, handlers) are modelled
    in M so that they can throw.
  * The Promise machinery is modelled only to the depth the library uses it
    in toPromise: the executor passed to the Promise constructor runs
    synchronously with the eventual resolve and reject continuations.
    Microtask scheduling, then-chaining and tryP are outside this model.
-/

/-- A JavaScript runtime value: undefined, a number, a string, or an array. -/
inductive JSVal : Type where
  | undefined : JSVal
  | num : Int → JSVal
  | str : String → JSVal
  | arr : List JSVal → JSVal

/-- A mutable heap cell, modelling the closure-captured local variables of
gather2 and allArray: a numeric counter, a boolean flag, or a results array. -/
inductive Cell : Type where
  | cNat : Nat → Cell
  | cBool : Bool → Cell
  | cArr : List JSVal → Cell

/-- An observable event: an invocation of the outer fail callback, of the
outer success callback, or of an instrumented action (identified by a tag). -/
inductive Event : Type where
  | rejected : JSVal → Event
  | resolved : JSVal → Event
  | invoked : Nat → Event

/-- The mutable program state: a heap of cells plus an append-only event log. -/
structure St : Type where
  heap : List Cell
  log : List Event

/-- The empty initial state. -/
def st0 : St := ⟨[], []⟩

/-- The effect monad: state transformer with JS exceptions.  State changes
made before a throw persist, as in JavaScript. -/
def M (α : Type) : Type := St → St × Except JSVal α

namespace M

def pure' (a : α) : M α := fun s => (s, .ok a)

def bind' (x : M α) (f : α → M β) : M β := fun s =>
  match x s with
  | (s1, .ok a) => f a s1
  | (s1, .error e) => (s1, .error e)

instance : Monad M where
  pure := pure'
  bind := bind'

/-- Throwing a JS exception. -/
def throw (e : JSVal) : M α := fun s => (s, .error e)

/-- A JS try block with a catch handler. -/
def tryCatch (x : M Unit) (h : JSVal → M Unit) : M Unit := fun s =>
  match x s with
  | (s1, .ok a) => (s1, .ok a)
  | (s1, .error e) => h e s1

/-- Allocate a fresh heap cell, returning its address. -/
def alloc (c : Cell) : M Nat := fun s =>
  ({s with heap := s.heap ++ [c]}, .ok s.heap.length)

/-- Read a heap cell (the default is irrelevant: addresses are always valid). -/
def readCell (a : Nat) : M Cell := fun s => (s, .ok (s.heap.getD a (.cNat 0)))

/-- Overwrite a heap cell. -/
def writeCell (a : Nat) (c : Cell) : M Unit := fun s =>
  ({s with heap := s.heap.set a c}, .ok ())

/-- Append an event to the observation log. -/
def logEv (e : Event) : M Unit := fun s =>
  ({s with log := s.log ++ [e]}, .ok ())

/-- Read a counter cell. -/
def readNat (a : Nat) : M Nat := do
  match ← readCell a with
  | .cNat n => pure n
  | _ => pure 0

/-- Read a boolean flag cell. -/
def readBool (a : Nat) : M Bool := do
  match ← readCell a with
  | .cBool b => pure b
  | _ => pure false

/-- Read a results-array cell. -/
def readArr (a : Nat) : M (List JSVal) := do
  match ← readCell a with
  | .cArr xs => pure xs
  | _ => pure []

/-- The JS statement plus-plus-count: increment a counter cell and return the
new value. -/
def incr (a : Nat) : M Nat := do
  let n ← readNat a
  writeCell a (.cNat (n + 1))
  pure (n + 1)

end M

/-- The JS assignment xs[i] = v on an array: in-bounds indices are overwritten,
out-of-bounds indices extend the array, filling the gap with undefined holes. -/
def setIdx (xs : List JSVal) (i : Nat) (v : JSVal) : List JSVal :=
  if i < xs.length then xs.set i v
  else xs ++ List.replicate (i - xs.length) JSVal.undefined ++ [v]

namespace M

/-- The JS statement results[i] = v on a results-array cell. -/
def setArr (a : Nat) (i : Nat) (v : JSVal) : M Unit := do
  let xs ← readArr a
  writeCell a (.cArr (setIdx xs i v))

end M

/-- A callback (reject or resolve handler): receives a value, performs effects. -/
def CB : Type := JSVal → M Unit

/-- Translation of the Future class (src/Future.ts lines 5 to 9): a Future is
its stored action, a function of the reject and resolve callbacks. -/
structure Future : Type where
  action : CB → CB → M Unit

namespace Future

/-- Translation of engage (src/Future.ts lines 16 to 18): invokes the stored
action on the two callbacks.  Note there is no try/catch here. -/
def engage (f : Future) (reject resolve : CB) : M Unit :=
  f.action reject resolve

/-- Translation of the private engageAndCatch (src/Future.ts lines 20 to 30):
when safe is true (the default value in the source), the engagement is wrapped in a
try/catch that converts a synchronous throw into a reject call; when safe is
false the engagement is unguarded. -/
def engageAndCatch (f : Future) (reject resolve : CB) (safe : Bool) : M Unit :=
  if safe then M.tryCatch (f.engage reject resolve) (fun e => reject e)
  else f.engage reject resolve

/-- Translation of toPromise (src/Future.ts lines 52 to 54).  The Promise
constructor runs its executor synchronously; here the executor receives the
eventual resolve and reject continuations of the consumer directly. -/
def toPromise (f : Future) (resolve reject : CB) : M Unit :=
  f.engageAndCatch reject resolve true

/-- Translation of the static of (src/Future.ts lines 136 to 140). -/
def of (result : JSVal) : Future :=
  ⟨fun _ resolve => resolve result⟩

/-- Translation of the static reject (src/Future.ts lines 145 to 149). -/
def reject (error : JSVal) : Future :=
  ⟨fun rej _ => rej error⟩

/-- Translation of flatMap (src/Future.ts lines 68 to 72).  The continuation
next is a user function: it may throw, which is modelled by M. -/
def flatMap (f : Future) (next : JSVal → M Future) : Future :=
  ⟨fun rej resolve =>
    f.engageAndCatch rej
      (fun data => do
        let g ← next data
        g.engageAndCatch rej resolve true)
      true⟩

/-- Translation of map (src/Future.ts lines 60 to 62): defined through flatMap;
the mapper is invoked first (it may throw), then its result is wrapped in of. -/
def map (f : Future) (mapper : JSVal → M JSVal) : Future :=
  f.flatMap (fun x => do
    let v ← mapper x
    pure (of v))

/-- Translation of handleWith (src/Future.ts lines 79 to 85): the receiver is
engaged with the bare engage (no try/catch) and the repair Future produced by
the handler is engaged with engageAndCatch and safe set to false. -/
def handleWith (f : Future) (errHandler : JSVal → M Future) : Future :=
  ⟨fun rej resolve =>
    f.engage
      (fun error => do
        let g ← errHandler error
        g.engageAndCatch rej resolve false)
      resolve⟩

/-- Translation of errorMap (src/Future.ts lines 91 to 95): the receiver is
engaged through engageAndCatch with a reject callback that first applies the
mapper (which may throw; no handling is added around it). -/
def errorMap (f : Future) (mapper : JSVal → M JSVal) : Future :=
  ⟨fun rej resolve =>
    f.engageAndCatch
      (fun error => do
        let v ← mapper error
        rej v)
      resolve
      true⟩

/-- Translation of the static tryF (src/Future.ts lines 101 to 112): run fn
inside a try; on a throw reject with the exception, otherwise resolve with the
returned value. -/
def tryF (fn : Unit → M JSVal) : Future :=
  ⟨fun rej resolve => fun s =>
    match fn () s with
    | (s1, .ok r) => resolve r s1
    | (s1, .error e) => rej e s1⟩

/-- Translation of the static encase (src/Future.ts lines 157 to 168): same
try/catch shape as tryF, applying fn to the stored argument. -/
def encase (fn : JSVal → M JSVal) (a : JSVal) : Future :=
  ⟨fun rej resolve => fun s =>
    match fn a s with
    | (s1, .ok r) => resolve r s1
    | (s1, .error e) => rej e s1⟩

/-- Translation of the static gather2 (src/Future.ts lines 175 to 212): the
action allocates the closure variables results, count and done, then engages
both input Futures through engageAndCatch.  The failure callbacks share the
one-shot done flag; the success callbacks fill a fixed slot and resolve once
the counter reaches two. -/
def gather2 (future1 future2 : Future) : Future :=
  ⟨fun rej resolve => do
    let results ← M.alloc (.cArr [])
    let count ← M.alloc (.cNat 0)
    let done ← M.alloc (.cBool false)
    future1.engageAndCatch
      (fun error => do
        let d ← M.readBool done
        if d then pure () else do
          M.writeCell done (.cBool true)
          rej error)
      (fun result => do
        M.setArr results 0 result
        let c ← M.incr count
        if c = 2 then do
          let xs ← M.readArr results
          resolve (.arr xs)
        else pure ())
      true
    future2.engageAndCatch
      (fun error => do
        let d ← M.readBool done
        if d then pure () else do
          M.writeCell done (.cBool true)
          rej error)
      (fun result => do
        M.setArr results 1 result
        let c ← M.incr count
        if c = 2 then do
          let xs ← M.readArr results
          resolve (.arr xs)
        else pure ())
      true⟩

/-- The flattening mapper of gather3: the JS destructuring of a pair of a pair
and a third value into a triple.  Other shapes do not occur. -/
def flatten3 : JSVal → JSVal
  | .arr [.arr [a, b], c] => .arr [a, b, c]
  | v => v

/-- The flattening mapper of gather4: the JS destructuring of a pair of pairs
into a quadruple.  Other shapes do not occur. -/
def flatten4 : JSVal → JSVal
  | .arr [.arr [a, b], .arr [c, d]] => .arr [a, b, c, d]
  | v => v

/-- Translation of the static gather3 (src/Future.ts lines 217 to 220):
nested gather2 with a flattening map. -/
def gather3 (future1 future2 future3 : Future) : Future :=
  (gather2 (gather2 future1 future2) future3).map (fun v => pure (flatten3 v))

/-- Translation of the static gather4 (src/Future.ts lines 225 to 234):
gather2 of two inner gather2 calls with a flattening map. -/
def gather4 (future1 future2 future3 future4 : Future) : Future :=
  (gather2 (gather2 future1 future2) (gather2 future3 future4)).map
    (fun v => pure (flatten4 v))

/-- The forEach loop inside allArray: run the body on each element of the list
together with its index, in order. -/
def allLoop (body : Future → Nat → M Unit) : List Future → Nat → M Unit
  | [], _ => pure ()
  | f :: rest, i => do
    body f i
    allLoop body rest (i + 1)

/-- The forEach callback inside allArray (src/Future.ts lines 261 to 274),
abstracted over the closure-captured input length n, callbacks, and the
addresses of the results and count cells: an element failure invokes reject
directly (there is no one-shot flag); an element success records its result by
index, increments the counter, and resolves when the counter reaches n. -/
def allBody (n : Nat) (rej resolve : CB) (results count : Nat) :
    Future → Nat → M Unit :=
  fun futureInstance index =>
    futureInstance.engageAndCatch
      (fun error => rej error)
      (fun result => do
        M.setArr results index result
        let c ← M.incr count
        if c = n then do
          let xs ← M.readArr results
          resolve (.arr xs)
        else pure ())
      true

/-- Translation of the private static allArray (src/Future.ts lines 252 to
276): the action allocates a results array and a counter (note: no one-shot
done flag), resolves immediately on an empty input, then engages every element
through engageAndCatch using the allBody callback. -/
def allArray (futures : List Future) : Future :=
  ⟨fun rej resolve => do
    let results ← M.alloc (.cArr [])
    let count ← M.alloc (.cNat 0)
    if futures.length = 0 then do
      let xs ← M.readArr results
      resolve (.arr xs)
    else pure ()
    allLoop (allBody futures.length rej resolve results count) futures 0⟩

/-- Translation of the static all (src/Future.ts lines 242 to 246) restricted
to the ordered-list branch of its runtime dispatch: an array argument is passed
to allArray. -/
def all (futures : List Future) : Future :=
  allArray futures

end Future

/-
Observation apparatus: canonical logging callbacks and instrumented actions
used to state the behavioural properties.
-/

/-- The canonical outer fail callback: records the delivered failure value. -/
def logReject : CB := fun e => M.logEv (.rejected e)

/-- The canonical outer success callback: records the delivered result value. -/
def logResolve : CB := fun r => M.logEv (.resolved r)

/-- An instrumented inert action: records its own invocation (with a tag) and
invokes neither callback. -/
def probeAction (tag : Nat) : CB → CB → M Unit :=
  fun _ _ => M.logEv (.invoked tag)

/-- An instrumented synchronously failing Future: records the invocation of
its action, then invokes the fail callback with the given error. -/
def failSync (tag : Nat) (e : JSVal) : Future :=
  ⟨fun rej _ => do
    M.logEv (.invoked tag)
    rej e⟩

/-- An instrumented synchronously succeeding Future: records the invocation of
its action, then invokes the success callback with the given result. -/
def succSync (tag : Nat) (r : JSVal) : Future :=
  ⟨fun _ resolve => do
    M.logEv (.invoked tag)
    resolve r⟩

/-- A Future whose action throws synchronously. -/
def throwFut (t : JSVal) : Future :=
  ⟨fun _ _ => M.throw t⟩

/-
Construction-phase semantics.  In the source, the bodies that run while a
Future is being constructed or derived (the constructor, map, flatMap,
handleWith, errorMap, gather2, gather3, gather4, all) contain no invocation of
any action and no engagement: they only build and store closures.  Their
construction-time effect semantics is therefore the identity on the state,
recorded by the following wrappers, which return the constructed Future as an
M computation.
-/

/-- Construction-time semantics of new Future(action) (src/Future.ts lines 7
to 9): the constructor body only stores the action. -/
def Future.constructM (action : CB → CB → M Unit) : M Future :=
  pure (Future.mk action)

/-- Construction-time semantics of map (src/Future.ts lines 60 to 62). -/
def Future.mapM (f : Future) (mapper : JSVal → M JSVal) : M Future :=
  pure (f.map mapper)

/-- Construction-time semantics of flatMap (src/Future.ts lines 68 to 72). -/
def Future.flatMapM (f : Future) (next : JSVal → M Future) : M Future :=
  pure (f.flatMap next)

/-- Construction-time semantics of handleWith (src/Future.ts lines 79 to 85). -/
def Future.handleWithM (f : Future) (errHandler : JSVal → M Future) : M Future :=
  pure (f.handleWith errHandler)

/-- Construction-time semantics of errorMap (src/Future.ts lines 91 to 95). -/
def Future.errorMapM (f : Future) (mapper : JSVal → M JSVal) : M Future :=
  pure (f.errorMap mapper)

/-- Construction-time semantics of gather2 (src/Future.ts lines 175 to 212). -/
def Future.gather2M (f g : Future) : M Future :=
  pure (Future.gather2 f g)

/-- Construction-time semantics of gather3 (src/Future.ts lines 217 to 220). -/
def Future.gather3M (f g h : Future) : M Future :=
  pure (Future.gather3 f g h)

/-- Construction-time semantics of gather4 (src/Future.ts lines 225 to 234). -/
def Future.gather4M (f g h k : Future) : M Future :=
  pure (Future.gather4 f g h k)

/-- Construction-time semantics of all (src/Future.ts lines 242 to 246) on an
ordered list. -/
def Future.allM (futures : List Future) : M Future :=
  pure (Future.all futures)

/-- The mapper x maps to x times two from the spec example, on JS numbers. -/
def jsDouble : JSVal → M JSVal :=
  fun v => pure (match v with | .num n => .num (2 * n) | _ => .undefined)

/-
Well-behaved synchronous element Futures for the aggregation properties: per
the data-model contract, an action invokes exactly one of its two callbacks
exactly once.  The synchronous such Futures are exactly those built by the
static of and reject constructors.
-/

/-- The settled outcome of a well-behaved synchronous Future. -/
inductive Outcome : Type where
  | fails : JSVal → Outcome
  | succeeds : JSVal → Outcome

/-- The synchronous Future with the given outcome. -/
def ofOutcome : Outcome → Future
  | .fails e => Future.reject e
  | .succeeds r => Future.of r

/-- The number of succeeding elements in a list of outcomes. -/
def succCount : List Outcome → Nat
  | [] => 0
  | .fails _ :: rest => succCount rest
  | .succeeds _ :: rest => succCount rest + 1

/-- The fail-callback invocations produced by a list of outcomes, in order. -/
def rejEvents : List Outcome → List Event
  | [] => []
  | .fails e :: rest => Event.rejected e :: rejEvents rest
  | .succeeds _ :: rest => rejEvents rest

/-- Pure model of the allArray forEach loop over synchronous outcome elements:
given the total input length n, the remaining outcomes, the current index, the
accumulated results array, the current counter and the current log, it returns
the final results array, counter and log. -/
def loopModel (n : Nat) : List Outcome → Nat → List JSVal → Nat → List Event →
    List JSVal × Nat × List Event
  | [], _, acc, c, lg => (acc, c, lg)
  | .fails e :: rest, i, acc, c, lg =>
      loopModel n rest (i + 1) acc c (lg ++ [Event.rejected e])
  | .succeeds r :: rest, i, acc, c, lg =>
      loopModel n rest (i + 1) (setIdx acc i r) (c + 1)
        (if c + 1 = n then lg ++ [Event.resolved (.arr (setIdx acc i r))] else lg)

/-- Engage the all combinator on a list of synchronous outcome Futures with
the logging callbacks, from the empty state. -/
def runAllOutcomes (os : List Outcome) : St × Except JSVal Unit :=
  (Future.all (os.map ofOutcome)).engage logReject logResolve st0

/-- The contents of the results-array cell of a final state (allArray stores
it at address 0 when engaged from the empty state). -/
def resultsCell (s : St) : List JSVal :=
  match s.heap.getD 0 (.cNat 0) with
  | .cArr xs => xs
  | _ => []

/-- The JS read xs[i] on an array: out-of-bounds reads give undefined. -/
def jsGet (xs : List JSVal) (i : Nat) : JSVal :=
  xs.getD i .undefined

/-
Claim theorems.
-/

/-- C1: the claim states that a synchronous throw of the action during
engage(fail, succeed) is caught and passed to fail.  The code diverges: the
public engage method (src/Future.ts lines 16 to 18) performs no try/catch, so
the thrown value propagates to the caller of engage and the fail callback is
never invoked (first conjunct); the conversion the claim describes happens
only in the private engageAndCatch wrapper used by toPromise and by the
combinators (second and third conjuncts).  The repository test suite
(Future.test.ts, test named "invokes reject when action throws exception")
asserts the claimed behaviour for engage, which the code violates. -/
theorem c1_engage_throw_propagates (t : JSVal) (s : St) :
    (Future.mk (fun _ _ => M.throw t)).engage logReject logResolve s
      = (s, .error t)
  ∧ (Future.mk (fun _ _ => M.throw t)).engageAndCatch logReject logResolve true s
      = ({s with log := s.log ++ [.rejected t]}, .ok ())
  ∧ (Future.mk (fun _ _ => M.throw t)).toPromise logResolve logReject s
      = ({s with log := s.log ++ [.rejected t]}, .ok ()) :=
  ⟨rfl, rfl, rfl⟩

/-- C2: the claim states that when several Futures given to all (array form)
fail in one engagement, only the first failure is delivered, subsequent ones
being dropped by a one-shot guard.  The code diverges: allArray (src/Future.ts
lines 252 to 276) has no done flag, so each failing element invokes the
combined fail callback; engaging all of two rejected Futures delivers both
failures, in completion order. -/
theorem c2_all_array_delivers_every_failure (e1 e2 : JSVal) :
    (Future.all [Future.reject e1, Future.reject e2]).engage logReject logResolve st0
      = (⟨[.cArr [], .cNat 0], [.rejected e1, .rejected e2]⟩, .ok ()) :=
  rfl

/-- C3: laziness.  Constructing a Future and deriving Futures through map,
flatMap, handleWith, errorMap, gather2, gather3, gather4 and all leaves the
state unchanged (no action is invoked: the construction bodies of the source
only build and store closures), while explicitly starting a Future via engage
or toPromise does invoke its action. -/
theorem c3_construction_is_lazy (a : CB → CB → M Unit) (mapper : JSVal → M JSVal)
    (next errH : JSVal → M Future) (f g h k : Future) (os : List Future)
    (s : St) (tag : Nat) :
    Future.constructM a s = (s, .ok (Future.mk a))
  ∧ Future.mapM f mapper s = (s, .ok (f.map mapper))
  ∧ Future.flatMapM f next s = (s, .ok (f.flatMap next))
  ∧ Future.handleWithM f errH s = (s, .ok (f.handleWith errH))
  ∧ Future.errorMapM f mapper s = (s, .ok (f.errorMap mapper))
  ∧ Future.gather2M f g s = (s, .ok (Future.gather2 f g))
  ∧ Future.gather3M f g h s = (s, .ok (Future.gather3 f g h))
  ∧ Future.gather4M f g h k s = (s, .ok (Future.gather4 f g h k))
  ∧ Future.allM os s = (s, .ok (Future.all os))
  ∧ (Future.mk (probeAction tag)).engage logReject logResolve s
      = ({s with log := s.log ++ [.invoked tag]}, .ok ())
  ∧ (Future.mk (probeAction tag)).toPromise logResolve logReject s
      = ({s with log := s.log ++ [.invoked tag]}, .ok ()) :=
  ⟨rfl, rfl, rfl, rfl, rfl, rfl, rfl, rfl, rfl, rfl, rfl⟩

/-- C4: engaging Future.reject(E).flatMap(next) delivers E unchanged to the
fail callback and performs nothing else; since the final state does not depend
on next, the continuation is never invoked, and the success callback is never
invoked (the log gains only the rejected event). -/
theorem c4_reject_flat_map_short_circuit (E : JSVal) (next : JSVal → M Future)
    (s : St) :
    ((Future.reject E).flatMap next).engage logReject logResolve s
      = ({s with log := s.log ++ [.rejected E]}, .ok ()) :=
  rfl

/-- C5: handleWith scoping.  Engaging Future.reject(E).handleWith of a handler
returning Future.of(R) invokes the success callback with R; engaging
Future.of(R).handleWith(h) delivers R unchanged to the success callback and,
since the final state does not depend on h, never invokes the handler. -/
theorem c5_handle_with_scoping (R E : JSVal) (h : JSVal → M Future) (s : St) :
    ((Future.reject E).handleWith (fun _ => pure (Future.of R))).engage
        logReject logResolve s
      = ({s with log := s.log ++ [.resolved R]}, .ok ())
  ∧ ((Future.of R).handleWith h).engage logReject logResolve s
      = ({s with log := s.log ++ [.resolved R]}, .ok ()) :=
  ⟨rfl, rfl⟩

/-- C6: engaging Future.of(5).map of the doubling mapper delivers 10 to the
success callback; engaging Future.of(5).map of a mapper that throws t delivers
t to the fail callback and never invokes the success callback (the throw is
converted by the engageAndCatch wrapper of the flatMap engagement, the same
fail channel as action failures). -/
theorem c6_map_success_and_throw (t : JSVal) (s : St) :
    ((Future.of (.num 5)).map jsDouble).engage logReject logResolve s
      = ({s with log := s.log ++ [.resolved (.num 10)]}, .ok ())
  ∧ ((Future.of (.num 5)).map (fun _ => M.throw t)).engage logReject logResolve s
      = ({s with log := s.log ++ [.rejected t]}, .ok ()) :=
  ⟨rfl, rfl⟩

/-- C7: gather2 of two synchronously failing Futures.  The final log shows:
the action of the first Future is invoked, its failure e1 is delivered to the
combined fail callback (the one-shot done flag is then set), the action of the
second Future is still invoked, and its failure is dropped by the guard; the
combined success callback is never invoked. -/
theorem c7_gather2_first_failure_wins (e1 e2 : JSVal) (t1 t2 : Nat) :
    (Future.gather2 (failSync t1 e1) (failSync t2 e2)).engage logReject logResolve st0
      = (⟨[.cArr [], .cNat 0, .cBool true],
          [.invoked t1, .rejected e1, .invoked t2]⟩, .ok ()) :=
  rfl

/-- C8: errorMap transforms only the failure value (second conjunct) and
leaves success untouched, never invoking the mapper on success (first
conjunct: the final state does not depend on m).  A mapper that itself throws
is not specially handled by errorMap: the exception propagates out of the
engagement as an uncaught exception to the caller of engage (third conjunct),
unless an enclosing engagement with a try/catch wrapper, such as toPromise,
converts it (fourth conjunct). -/
theorem c8_error_map_behaviour (m : JSVal → M JSVal) (g : JSVal → JSVal)
    (R E T : JSVal) (s : St) :
    ((Future.of R).errorMap m).engage logReject logResolve s
      = ({s with log := s.log ++ [.resolved R]}, .ok ())
  ∧ ((Future.reject E).errorMap (fun e => pure (g e))).engage logReject logResolve s
      = ({s with log := s.log ++ [.rejected (g E)]}, .ok ())
  ∧ ((Future.reject E).errorMap (fun _ => M.throw T)).engage logReject logResolve s
      = (s, .error T)
  ∧ ((Future.reject E).errorMap (fun _ => M.throw T)).toPromise logResolve logReject s
      = ({s with log := s.log ++ [.rejected T]}, .ok ()) :=
  ⟨rfl, rfl, rfl, rfl⟩

/-- C9: handleWith engages without exception-to-failure conversion.  If the
action of the receiver throws, the exception propagates out of the handleWith
engagement and the handler is never invoked (first conjunct: the result does
not depend on h and no callback event is logged); if the repair Future throws,
the exception likewise propagates (second conjunct); by contrast a flatMap
engagement converts the same throw into a failure (third conjunct). -/
theorem c9_handle_with_unguarded_engagement (T E : JSVal)
    (h next : JSVal → M Future) (s : St) :
    ((throwFut T).handleWith h).engage logReject logResolve s = (s, .error T)
  ∧ ((Future.reject E).handleWith (fun _ => pure (throwFut T))).engage
        logReject logResolve s = (s, .error T)
  ∧ ((throwFut T).flatMap next).engage logReject logResolve s
      = ({s with log := s.log ++ [.rejected T]}, .ok ()) :=
  ⟨rfl, rfl, rfl⟩

/-
Helper lemmas for the aggregation proofs: running the monadic primitives.
-/

/-- Running a bind: the continuation runs on the intermediate state unless an
exception was thrown. -/
theorem M.run_bind (x : M α) (f : α → M β) (s : St) :
    (x >>= f) s = match x s with
      | (s1, .ok a) => f a s1
      | (s1, .error e) => (s1, .error e) := rfl

/-- Running a pure computation. -/
theorem M.run_pure (a : α) (s : St) : (pure a : M α) s = (s, .ok a) := rfl

/-- Running a conditional computation: the state application distributes over
the two branches. -/
theorem M.run_ite (c : Prop) [Decidable c] (x y : M α) (s : St) :
    (if c then x else y) s = if c then x s else y s := by
  by_cases h : c
  · rw [if_pos h, if_pos h]
  · rw [if_neg h, if_neg h]

/-- Running the allBody callback on a synchronously failing element: the
failure is passed straight to the outer reject callback (no guard). -/
theorem allBody_fails (n i : Nat) (e : JSVal) (acc : List JSVal) (cnt : Nat)
    (lg : List Event) :
    Future.allBody n logReject logResolve 0 1 (ofOutcome (.fails e)) i
        ⟨[.cArr acc, .cNat cnt], lg⟩
      = (⟨[.cArr acc, .cNat cnt], lg ++ [.rejected e]⟩, .ok ()) := rfl

/-- Running the allBody callback on a synchronously succeeding element: the
result is stored at the element index, the counter is incremented, and the
outer resolve callback fires exactly when the counter reaches n. -/
theorem allBody_succeeds (n i : Nat) (r : JSVal) (acc : List JSVal) (cnt : Nat)
    (lg : List Event) :
    Future.allBody n logReject logResolve 0 1 (ofOutcome (.succeeds r)) i
        ⟨[.cArr acc, .cNat cnt], lg⟩
      = (⟨[.cArr (setIdx acc i r), .cNat (cnt + 1)],
          if cnt + 1 = n then lg ++ [.resolved (.arr (setIdx acc i r))] else lg⟩,
         .ok ()) := by
  by_cases hc : cnt + 1 = n
  · simp [Future.allBody, Future.engageAndCatch, Future.engage, ofOutcome,
      Future.of, M.tryCatch, M.setArr, M.readArr, M.readNat, M.readCell,
      M.writeCell, M.incr, M.logEv, logResolve, logReject, M.run_bind,
      M.run_pure, M.run_ite, hc]
  · simp [Future.allBody, Future.engageAndCatch, Future.engage, ofOutcome,
      Future.of, M.tryCatch, M.setArr, M.readArr, M.readNat, M.readCell,
      M.writeCell, M.incr, M.logEv, logResolve, logReject, M.run_bind,
      M.run_pure, M.run_ite, hc]

/-- Simulation of the allArray forEach loop over synchronous outcome elements
by the pure loopModel function. -/
theorem allLoop_outcomes (n : Nat) (os : List Outcome) :
    ∀ (i : Nat) (acc : List JSVal) (cnt : Nat) (lg : List Event),
    Future.allLoop (Future.allBody n logReject logResolve 0 1)
        (os.map ofOutcome) i ⟨[.cArr acc, .cNat cnt], lg⟩
      = (⟨[.cArr (loopModel n os i acc cnt lg).1,
           .cNat (loopModel n os i acc cnt lg).2.1],
          (loopModel n os i acc cnt lg).2.2⟩, .ok ()) := by
  induction os with
  | nil => intro i acc cnt lg; rfl
  | cons o rest ih =>
    intro i acc cnt lg
    cases o with
    | fails e =>
      simp only [List.map_cons, Future.allLoop, M.run_bind, allBody_fails,
        loopModel]
      exact ih (i + 1) acc cnt (lg ++ [.rejected e])
    | succeeds r =>
      simp only [List.map_cons, Future.allLoop, M.run_bind, allBody_succeeds,
        loopModel]
      exact ih (i + 1) (setIdx acc i r) (cnt + 1)
        (if cnt + 1 = n then lg ++ [.resolved (.arr (setIdx acc i r))] else lg)

/-- Engaging the all combinator on a nonempty list of synchronous outcome
Futures from the empty state: the allocations put the results array at
address 0 and the counter at address 1, the empty-input branch is skipped,
and the loop behaves as loopModel. -/
theorem runAllOutcomes_eq (o : Outcome) (rest : List Outcome) :
    runAllOutcomes (o :: rest)
      = (⟨[.cArr (loopModel ((o :: rest).length) (o :: rest) 0 [] 0 []).1,
           .cNat (loopModel ((o :: rest).length) (o :: rest) 0 [] 0 []).2.1],
          (loopModel ((o :: rest).length) (o :: rest) 0 [] 0 []).2.2⟩,
         .ok ()) := by
  have h := allLoop_outcomes (((o :: rest).map ofOutcome).length) (o :: rest) 0 [] 0 []
  rw [List.length_map] at h
  show Future.allLoop
      (Future.allBody (((o :: rest).map ofOutcome).length) logReject logResolve 0 1)
      ((o :: rest).map ofOutcome) 0 ⟨[.cArr [], .cNat 0], []⟩ = _
  rw [List.length_map]
  exact h

/-- The final counter of loopModel counts exactly the succeeding elements. -/
theorem loopModel_count (n : Nat) (os : List Outcome) :
    ∀ (i : Nat) (acc : List JSVal) (cnt : Nat) (lg : List Event),
    (loopModel n os i acc cnt lg).2.1 = cnt + succCount os := by
  induction os with
  | nil => intro i acc cnt lg; simp [loopModel, succCount]
  | cons o rest ih =>
    intro i acc cnt lg
    cases o with
    | fails e => simp [loopModel, succCount, ih]
    | succeeds r => simp [loopModel, succCount, ih]; omega

/-- When the successes cannot reach the input length, the loop never fires the
resolve callback: the log gains exactly the failure deliveries, in order. -/
theorem loopModel_log_under (n : Nat) (os : List Outcome) :
    ∀ (i : Nat) (acc : List JSVal) (cnt : Nat) (lg : List Event),
    cnt + succCount os < n →
    (loopModel n os i acc cnt lg).2.2 = lg ++ rejEvents os := by
  induction os with
  | nil => intro i acc cnt lg h; simp [loopModel, rejEvents]
  | cons o rest ih =>
    intro i acc cnt lg h
    cases o with
    | fails e =>
      simp only [succCount] at h
      rw [loopModel, ih (i + 1) acc cnt (lg ++ [Event.rejected e]) h]
      simp [rejEvents]
    | succeeds r =>
      simp only [succCount] at h
      have hne : ¬(cnt + 1 = n) := by omega
      rw [loopModel, if_neg hne,
        ih (i + 1) (setIdx acc i r) (cnt + 1) lg (by omega)]
      simp [rejEvents]

/-- Reading a just-set in-bounds index gives the written value. -/
theorem jsGet_set_self : ∀ (xs : List JSVal) (i : Nat) (v : JSVal),
    i < xs.length → jsGet (xs.set i v) i = v := by
  intro xs
  induction xs with
  | nil => intro i v h; simp at h
  | cons x t ih =>
    intro i v h
    cases i with
    | zero => rfl
    | succ j =>
      exact ih j v (by simp only [List.length_cons] at h; omega)

/-- Setting an index leaves reads of other indices unchanged. -/
theorem jsGet_set_other : ∀ (xs : List JSVal) (i j : Nat) (v : JSVal),
    i ≠ j → jsGet (xs.set i v) j = jsGet xs j := by
  intro xs
  induction xs with
  | nil => intro i j v _; rfl
  | cons x t ih =>
    intro i j v h
    cases i with
    | zero =>
      cases j with
      | zero => exact absurd rfl h
      | succ k => rfl
    | succ m =>
      cases j with
      | zero => rfl
      | succ k => exact ih m k v (fun hh => h (by rw [hh]))

/-- Reading past the left part of an append reads the right part. -/
theorem jsGet_append_right : ∀ (xs ys : List JSVal) (j : Nat),
    jsGet (xs ++ ys) (xs.length + j) = jsGet ys j := by
  intro xs
  induction xs with
  | nil => intro ys j; rw [List.nil_append, List.length_nil, Nat.zero_add]
  | cons x t ih =>
    intro ys j
    rw [List.cons_append]
    have hn : (x :: t).length + j = (t.length + j) + 1 := by
      simp only [List.length_cons]; omega
    rw [hn]
    exact ih ys j

/-- Reading inside the left part of an append reads the left part. -/
theorem jsGet_append_left : ∀ (xs ys : List JSVal) (j : Nat),
    j < xs.length → jsGet (xs ++ ys) j = jsGet xs j := by
  intro xs
  induction xs with
  | nil => intro ys j h; simp at h
  | cons x t ih =>
    intro ys j h
    cases j with
    | zero => rfl
    | succ k => exact ih ys k (by simp only [List.length_cons] at h; omega)

/-- Reading anywhere in a run of undefined holes gives undefined. -/
theorem jsGet_replicate_undefined : ∀ (k j : Nat),
    jsGet (List.replicate k JSVal.undefined) j = JSVal.undefined := by
  intro k
  induction k with
  | zero => intro j; rfl
  | succ k ih =>
    intro j
    cases j with
    | zero => rfl
    | succ m => exact ih m

/-- Reading out of bounds gives undefined. -/
theorem jsGet_out : ∀ (xs : List JSVal) (j : Nat),
    xs.length ≤ j → jsGet xs j = JSVal.undefined := by
  intro xs
  induction xs with
  | nil => intro j _; rfl
  | cons x t ih =>
    intro j h
    cases j with
    | zero => simp at h
    | succ m => exact ih m (by simp only [List.length_cons] at h; omega)

/-- Reading the end of a padded extension gives the appended value. -/
theorem jsGet_pad : ∀ (k : Nat) (v : JSVal),
    jsGet (List.replicate k JSVal.undefined ++ [v]) k = v := by
  intro k
  induction k with
  | zero => intro v; rfl
  | succ k ih => intro v; exact ih v

/-- The JS assignment xs[i] = v makes index i read back v. -/
theorem jsGet_setIdx_self (xs : List JSVal) (i : Nat) (v : JSVal) :
    jsGet (setIdx xs i v) i = v := by
  unfold setIdx
  by_cases h : i < xs.length
  · rw [if_pos h]; exact jsGet_set_self xs i v h
  · rw [if_neg h, List.append_assoc]
    have h4 := jsGet_append_right xs
      (List.replicate (i - xs.length) JSVal.undefined ++ [v]) (i - xs.length)
    have h5 : xs.length + (i - xs.length) = i := by omega
    rw [h5] at h4
    rw [h4]
    exact jsGet_pad (i - xs.length) v

/-- The JS assignment xs[i] = v leaves reads strictly below i unchanged. -/
theorem jsGet_setIdx_lt (xs : List JSVal) (i : Nat) (v : JSVal) (p : Nat)
    (hp : p < i) : jsGet (setIdx xs i v) p = jsGet xs p := by
  unfold setIdx
  by_cases h : i < xs.length
  · rw [if_pos h]; exact jsGet_set_other xs i p v (by omega)
  · rw [if_neg h, List.append_assoc]
    by_cases hpx : p < xs.length
    · exact jsGet_append_left _ _ _ hpx
    · have h4 := jsGet_append_right xs
        (List.replicate (i - xs.length) JSVal.undefined ++ [v]) (p - xs.length)
      have h5 : xs.length + (p - xs.length) = p := by omega
      rw [h5] at h4
      rw [h4, jsGet_out xs p (by omega),
        jsGet_append_left _ _ _ (by simp only [List.length_replicate]; omega)]
      exact jsGet_replicate_undefined _ _

/-- The loop writes only at indices at or above its current index: reads
strictly below are unchanged. -/
theorem loopModel_keeps_lt (n : Nat) (os : List Outcome) :
    ∀ (i : Nat) (acc : List JSVal) (cnt : Nat) (lg : List Event) (p : Nat),
    p < i → jsGet (loopModel n os i acc cnt lg).1 p = jsGet acc p := by
  induction os with
  | nil => intro i acc cnt lg p _; rfl
  | cons o rest ih =>
    intro i acc cnt lg p hp
    cases o with
    | fails e =>
      rw [loopModel]
      exact ih (i + 1) acc cnt (lg ++ [Event.rejected e]) p (by omega)
    | succeeds r =>
      rw [loopModel]
      exact (ih (i + 1) (setIdx acc i r) (cnt + 1)
        (if cnt + 1 = n then lg ++ [Event.resolved (JSVal.arr (setIdx acc i r))]
         else lg) p (by omega)).trans (jsGet_setIdx_lt acc i r p hp)

/-- Every succeeding element is recorded in the results array at its input
index, whatever else happens around it. -/
theorem loopModel_records (n : Nat) (os : List Outcome) :
    ∀ (i : Nat) (acc : List JSVal) (cnt : Nat) (lg : List Event) (j : Nat)
    (r : JSVal), os[j]? = some (Outcome.succeeds r) →
    jsGet (loopModel n os i acc cnt lg).1 (i + j) = r := by
  induction os with
  | nil => intro i acc cnt lg j r h; simp at h
  | cons o rest ih =>
    intro i acc cnt lg j r h
    cases j with
    | zero =>
      cases o with
      | fails e => simp at h
      | succeeds r2 =>
        have hr : r2 = r := by simpa using h
        cases hr
        rw [loopModel]
        exact (loopModel_keeps_lt n rest (i + 1) (setIdx acc i r) (cnt + 1)
          (if cnt + 1 = n then
            lg ++ [Event.resolved (JSVal.arr (setIdx acc i r))] else lg)
          i (by omega)).trans (jsGet_setIdx_self acc i r)
    | succ k =>
      have h2 : rest[k]? = some (Outcome.succeeds r) := by simpa using h
      have hidx : i + (k + 1) = (i + 1) + k := by omega
      cases o with
      | fails e =>
        rw [loopModel, hidx]
        exact ih (i + 1) acc cnt (lg ++ [Event.rejected e]) k r h2
      | succeeds r2 =>
        rw [loopModel, hidx]
        exact ih (i + 1) (setIdx acc i r2) (cnt + 1)
          (if cnt + 1 = n then
            lg ++ [Event.resolved (JSVal.arr (setIdx acc i r2))] else lg)
          k r h2

/-- At most every element succeeds. -/
theorem succCount_le (os : List Outcome) : succCount os ≤ os.length := by
  induction os with
  | nil => simp [succCount]
  | cons o rest ih =>
    cases o with
    | fails e => simp only [succCount, List.length_cons]; omega
    | succeeds r => simp only [succCount, List.length_cons]; omega

/-- A list containing a failing element has strictly fewer successes than
elements. -/
theorem succCount_lt : ∀ (os : List Outcome) (e : JSVal),
    Outcome.fails e ∈ os → succCount os < os.length := by
  intro os
  induction os with
  | nil => intro e he; simp at he
  | cons o rest ih =>
    intro e he
    cases o with
    | fails e2 =>
      have h1 := succCount_le rest
      simp only [succCount, List.length_cons]
      omega
    | succeeds r =>
      have hmem : Outcome.fails e ∈ rest := by
        rcases List.mem_cons.mp he with h1 | h1
        · cases h1
        · exact h1
      have h2 := ih e hmem
      simp only [succCount, List.length_cons]
      omega

/-- The failure deliveries contain no success delivery. -/
theorem rejEvents_no_resolved : ∀ (os : List Outcome) (v : JSVal),
    Event.resolved v ∉ rejEvents os := by
  intro os
  induction os with
  | nil => intro v h; simp [rejEvents] at h
  | cons o rest ih =>
    intro v h
    cases o with
    | fails e =>
      simp only [rejEvents] at h
      rcases List.mem_cons.mp h with h1 | h1
      · cases h1
      · exact ih v h1
    | succeeds r => exact ih v (by simpa [rejEvents] using h)

/-- C10: within one engagement of the combined Future from all (array form)
over well-behaved synchronous elements, if any element fails then the
engagement completes without the combined success callback ever being invoked
(no resolved event in the log); the completion counter (heap address 1) counts
only the successes and therefore stays strictly below the input length; and
every succeeding sibling element is still recorded in the results accumulator
(heap address 0) at its input index. -/
theorem c10_all_failure_blocks_resolve (os : List Outcome)
    (hf : ∃ e, Outcome.fails e ∈ os) :
    (runAllOutcomes os).2 = .ok ()
  ∧ (∀ v, Event.resolved v ∉ (runAllOutcomes os).1.log)
  ∧ (runAllOutcomes os).1.heap.getD 1 (.cNat 0) = .cNat (succCount os)
  ∧ succCount os < os.length
  ∧ (∀ j r, os[j]? = some (Outcome.succeeds r) →
      jsGet (resultsCell (runAllOutcomes os).1) j = r) := by
  obtain ⟨e, he⟩ := hf
  have hlt : succCount os < os.length := succCount_lt os e he
  cases os with
  | nil => simp at he
  | cons o rest =>
    have heq := runAllOutcomes_eq o rest
    have hcnt := loopModel_count ((o :: rest).length) (o :: rest) 0 [] 0 []
    have hlog := loopModel_log_under ((o :: rest).length) (o :: rest) 0 [] 0 []
      (by omega)
    refine ⟨?_, ?_, ?_, hlt, ?_⟩
    · rw [heq]
    · intro v
      rw [heq]
      simp only [hlog, List.nil_append]
      exact rejEvents_no_resolved (o :: rest) v
    · rw [heq]
      simp only [List.getD_cons_succ, List.getD_cons_zero, hcnt, Nat.zero_add]
    · intro j r hj
      rw [heq]
      have hrec := loopModel_records ((o :: rest).length) (o :: rest) 0 [] 0 [] j r hj
      rw [Nat.zero_add] at hrec
      simpa [resultsCell] using hrec

/-- Witness for C10 at the concrete input of one failing and one succeeding
element: the hypothesis holds and the conclusions follow by applying the
theorem. -/
theorem c10_all_failure_blocks_resolve_witness :
    (∃ e, Outcome.fails e ∈
        [Outcome.fails (JSVal.num 1), Outcome.succeeds (JSVal.num 7)])
  ∧ ((runAllOutcomes [Outcome.fails (JSVal.num 1), Outcome.succeeds (JSVal.num 7)]).2 = .ok ()
  ∧ (∀ v, Event.resolved v ∉
      (runAllOutcomes [Outcome.fails (JSVal.num 1), Outcome.succeeds (JSVal.num 7)]).1.log)
  ∧ (runAllOutcomes [Outcome.fails (JSVal.num 1), Outcome.succeeds (JSVal.num 7)]).1.heap.getD 1 (.cNat 0)
      = .cNat (succCount [Outcome.fails (JSVal.num 1), Outcome.succeeds (JSVal.num 7)])
  ∧ succCount [Outcome.fails (JSVal.num 1), Outcome.succeeds (JSVal.num 7)]
      < ([Outcome.fails (JSVal.num 1), Outcome.succeeds (JSVal.num 7)] : List Outcome).length
  ∧ (∀ j r, ([Outcome.fails (JSVal.num 1), Outcome.succeeds (JSVal.num 7)] : List Outcome)[j]?
        = some (Outcome.succeeds r) →
      jsGet (resultsCell (runAllOutcomes [Outcome.fails (JSVal.num 1), Outcome.succeeds (JSVal.num 7)]).1) j = r)) := by
  have hf : ∃ e, Outcome.fails e ∈
      [Outcome.fails (JSVal.num 1), Outcome.succeeds (JSVal.num 7)] :=
    ⟨JSVal.num 1, by simp⟩
  exact ⟨hf, c10_all_failure_blocks_resolve _ hf⟩
